import Mathlib

/-!
Verification of the `gpsavg` GPS-log averaging tool against its specification.

The development shallowly embeds the program's core (`src/main.rs`): the NMEA
sentence parser `parse_line`, the statistics computations of `main`
(mean / Bessel-corrected standard deviation), the sigma-clipping outlier
filter, and the `histogram` function together with the per-bin count vector
that `main` builds from its output.

Modelling conventions:
* `f64` values are modelled as exact rationals (`ℚ`); rounding error,
  infinities and NaN payloads are not tracked, except where a claim is about
  a division by zero, where an explicit `Option ℚ` model (`fdivChecked`)
  records that the result of dividing by zero is non-finite (NaN for `0/0`).
* `f64::powf(0.5)` has no exact rational counterpart; it is modelled by
  `fsqrt` (Mathlib's `Rat.sqrt`).  No theorem below depends on the value of
  `fsqrt` except at `0`, where any square-root model returns `0`.
* Rust panics (out-of-bounds indexing, `str::split_at` beyond the string
  length, `usize` underflow) are modelled by `Option`/dedicated constructors
  returning `none` / `.panic`.
* Strings are assumed ASCII (the byte indices used by `str::split_at` then
  coincide with character indices).
-/

attribute [local semireducible] Rat.mul Rat.inv Rat.add Rat.sub

namespace Gpsavg

/-- Model of `glam::DVec3`: a triple of `f64` scalars, here exact rationals. -/
structure Vec3 where
  x : ℚ
  y : ℚ
  z : ℚ
deriving DecidableEq, Repr

instance : Add Vec3 := ⟨fun a b => ⟨a.x + b.x, a.y + b.y, a.z + b.z⟩⟩

instance : Sub Vec3 := ⟨fun a b => ⟨a.x - b.x, a.y - b.y, a.z - b.z⟩⟩

instance : Zero Vec3 := ⟨⟨0, 0, 0⟩⟩

/-- Componentwise `DVec3::powf(2.0)`: squares each coordinate. -/
def Vec3.sq (v : Vec3) : Vec3 := ⟨v.x * v.x, v.y * v.y, v.z * v.z⟩

/-- Componentwise division of a `DVec3` by an `f64` scalar. -/
def Vec3.divScalar (v : Vec3) (q : ℚ) : Vec3 := ⟨v.x / q, v.y / q, v.z / q⟩

/-- Model of `f64::powf(0.5)` on one scalar.  An exact rational square root
does not exist; `Rat.sqrt` is used as the stand-in.  The theorems below rely
only on `fsqrt 0 = 0`, which holds for every square-root model. -/
def fsqrt (q : ℚ) : ℚ := Rat.sqrt q

/-- Componentwise `DVec3::powf(0.5)`. -/
def Vec3.fsqrtVec (v : Vec3) : Vec3 := ⟨fsqrt v.x, fsqrt v.y, fsqrt v.z⟩

/-- Model of `positions.iter().copied().sum::<DVec3>()`: a left fold of
componentwise addition starting from the zero vector. -/
def sumVec (l : List Vec3) : Vec3 := l.foldl (· + ·) 0

/-- Lines 54-55 of `main.rs`: `avg = positions.sum::<DVec3>() / n as f64`.
There is no emptiness check in the source; `n = 0` divides by zero. -/
def avg (positions : List Vec3) : Vec3 :=
  (sumVec positions).divScalar (positions.length : ℚ)

/-- Lines 56-62 of `main.rs`:
`std_dev = (positions.map(|r| (r - avg).powf(2.)).sum() / (n - 1) as f64).powf(0.5)`.
The denominator is the `usize` difference `n - 1` (here `Nat` subtraction;
at `n = 0` the Rust subtraction underflows, see `avgChecked`/`sub1Checked`). -/
def std_dev (positions : List Vec3) : Vec3 :=
  Vec3.fsqrtVec
    ((sumVec (positions.map (fun r => (r - avg positions).sq))).divScalar
      (((positions.length - 1 : ℕ) : ℚ)))

/-- f64 division with the zero-denominator case made explicit: `none` models a
non-finite result (NaN when the numerator is also zero, ±inf otherwise). -/
def fdivChecked (a b : ℚ) : Option ℚ :=
  if b = 0 then none else some (a / b)

/-- The mean computation of `main` (lines 54-55) with division-by-zero
tracking on each axis: `none` when the divisor `n` is zero. -/
def avgChecked (positions : List Vec3) : Option Vec3 :=
  match fdivChecked (sumVec positions).x (positions.length : ℚ),
        fdivChecked (sumVec positions).y (positions.length : ℚ),
        fdivChecked (sumVec positions).z (positions.length : ℚ) with
  | some a, some b, some c => some ⟨a, b, c⟩
  | _, _, _ => none

/-- The `usize` subtraction `n - 1` of line 61 with the underflow made
explicit: at `n = 0` the Rust subtraction overflows (a panic in debug
builds, a wrap-around in release builds); modelled as `none`. -/
def sub1Checked (n : ℕ) : Option ℕ :=
  if n = 0 then none else some (n - 1)

/-- Lines 93-106 of `main.rs`: the sigma-clipping filter predicate, exactly
as written in the source (`cutoff = 3.0`, strict `<`/`>` on all three axes),
evaluated against a given mean `m` and standard deviation `s`. -/
def filterPred (m s x : Vec3) : Bool :=
  decide (m.x - 3 * s.x < x.x) && decide (x.x < m.x + 3 * s.x) &&
  decide (m.y - 3 * s.y < x.y) && decide (x.y < m.y + 3 * s.y) &&
  decide (m.z - 3 * s.z < x.z) && decide (x.z < m.z + 3 * s.z)

/-- Lines 93-106 of `main.rs`: `positions_filtered`, filtering the raw
position list against the pass-1 statistics of that same list. -/
def positions_filtered (positions : List Vec3) : List Vec3 :=
  positions.filter (fun x => filterPred (avg positions) (std_dev positions) x)

/-- Line 110 of `main.rs`: the reported mean, recomputed on the filtered set. -/
def avg_filtered (positions : List Vec3) : Vec3 :=
  avg (positions_filtered positions)

/-- Lines 111-117 of `main.rs`: the reported standard deviation, recomputed
on the filtered set. -/
def std_dev_filtered (positions : List Vec3) : Vec3 :=
  std_dev (positions_filtered positions)

/-- Worded from the specification (§4.3): a position is retained exactly when,
for all three axes simultaneously,
`mean[axis] - k*stddev[axis] < value < mean[axis] + k*stddev[axis]` with
`k = 3` and strict inequalities. -/
def specRetains (m s v : Vec3) : Prop :=
  (m.x - 3 * s.x < v.x ∧ v.x < m.x + 3 * s.x) ∧
  (m.y - 3 * s.y < v.y ∧ v.y < m.y + 3 * s.y) ∧
  (m.z - 3 * s.z < v.z ∧ v.z < m.z + 3 * s.z)

instance (m s v : Vec3) : Decidable (specRetains m s v) := by
  unfold specRetains; infer_instance

/-! ### Sentence parser (`parse_line`, lines 194-267 of `main.rs`) -/

/-- Result of `parse_line`.  The Rust function returns
`anyhow::Result<Option<DVec3>>`; `.panic` additionally records the runtime
panics that `str::split_at` can raise (they are not in the return type but
are real behaviour of the code).  Error messages are abstracted away. -/
inductive PRes where
  | panic : PRes
  | err : PRes
  | ok : Option Vec3 → PRes
deriving DecidableEq, Repr

/-- Model of Rust `str::split(',')` (an ASCII string is a list of its
characters): splits at every comma, keeping empty pieces, and yields at
least one piece. -/
def splitCommaAux : List Char → List Char → List String
  | [], acc => [String.mk acc.reverse]
  | c :: cs, acc =>
    if c = ',' then String.mk acc.reverse :: splitCommaAux cs []
    else splitCommaAux cs (c :: acc)

/-- Rust `line.split(',')` collected into a list of fields. -/
def splitComma (s : String) : List String := splitCommaAux s.data []

/-- First component of Rust `str::split_at n` (ASCII): the first `n` bytes. -/
def strTake (s : String) (n : ℕ) : String := String.mk (s.data.take n)

/-- Second component of Rust `str::split_at n` (ASCII): the bytes from `n`. -/
def strDrop (s : String) (n : ℕ) : String := String.mk (s.data.drop n)

/-- Decimal digit test, as in the grammar of Rust's `f64::from_str`. -/
def isDig (c : Char) : Bool := c.isDigit

/-- Value of a list of decimal digits, most significant first. -/
def digitsToNat (cs : List Char) : ℕ :=
  cs.foldl (fun a c => 10 * a + (c.toNat - 48)) 0

/-- Model of Rust `str::parse::<f64>()` on its decimal grammar
`[+-]? (digits ['.' digits*] | '.' digits) ([eE] [+-]? digits)?`, evaluated
exactly over `ℚ`.  Round-to-nearest-double, overflow to infinity and the
special literals `inf`/`NaN` are not modelled; no claim exercises them. -/
def parseF64 (s : String) : Option ℚ :=
  let cs := s.data
  let sgn : Bool × List Char :=
    match cs with
    | '+' :: t => (false, t)
    | '-' :: t => (true, t)
    | _ => (false, cs)
  let neg := sgn.1
  let ip := sgn.2.takeWhile isDig
  let cs2 := sgn.2.dropWhile isDig
  let frac : List Char × List Char :=
    match cs2 with
    | '.' :: t => (t.takeWhile isDig, t.dropWhile isDig)
    | _ => ([], cs2)
  let fp := frac.1
  let cs3 := frac.2
  if ip.isEmpty && fp.isEmpty then none
  else
    let mant : ℚ := (digitsToNat (ip ++ fp) : ℚ) / ((10 : ℚ) ^ fp.length)
    let fin : ℚ → Option ℚ := fun v => some (if neg then -v else v)
    match cs3 with
    | [] => fin mant
    | e :: t =>
      if e = 'e' || e = 'E' then
        let esgn : Bool × List Char :=
          match t with
          | '+' :: u => (false, u)
          | '-' :: u => (true, u)
          | _ => (false, t)
        let ed := esgn.2.takeWhile isDig
        let rest := esgn.2.dropWhile isDig
        if ed.isEmpty || !rest.isEmpty then none
        else if esgn.1 then fin (mant / (10 : ℚ) ^ digitsToNat ed)
        else fin (mant * (10 : ℚ) ^ digitsToNat ed)
      else none

/-- Body of the `Some("$GPGGA")` arm of `parse_line` (lines 199-264):
`rest` is the list of fields after the `$GPGGA` header.  The Rust code
converts it to `[&str; 14]` (wrong count ⟹ `Err`), splits the latitude
field at byte 2 and the longitude field at byte 3 (too-short field ⟹
`split_at` panic), parses the pieces and the altitude field (failure ⟹
`Err`), and finally applies the hemisphere signs (`N`/`S`, `E`/`W`;
anything else ⟹ `Err`). -/
def parseGGA : List String → PRes
  | [_p0, p1, p2, p3, p4, _p5, _p6, _p7, p8, _p9, _p10, _p11, _p12, _p13] =>
    if p1.length < 2 then PRes.panic
    else
      match parseF64 (strTake p1 2), parseF64 (strDrop p1 2) with
      | some latDeg, some latMin =>
        let lat := latDeg + latMin / 60
        if p3.length < 3 then PRes.panic
        else
          match parseF64 (strTake p3 3), parseF64 (strDrop p3 3) with
          | some lonDeg, some lonMin =>
            let lon := lonDeg + lonMin / 60
            match parseF64 p8 with
            | some ele =>
              if p2 = "N" then
                if p4 = "E" then PRes.ok (some ⟨lat, lon, ele⟩)
                else if p4 = "W" then PRes.ok (some ⟨lat, -lon, ele⟩)
                else PRes.err
              else if p2 = "S" then
                if p4 = "E" then PRes.ok (some ⟨-lat, lon, ele⟩)
                else if p4 = "W" then PRes.ok (some ⟨-lat, -lon, ele⟩)
                else PRes.err
              else PRes.err
            | none => PRes.err
          | _, _ => PRes.err
      | _, _ => PRes.err
  | _ => PRes.err

/-- Lines 194-267 of `main.rs`: `parse_line`.  A line whose first
comma-field is not `$GPGGA` yields `Ok(None)`. -/
def parse_line (line : String) : PRes :=
  match splitComma line with
  | [] => PRes.ok none
  | f :: rest => if f = "$GPGGA" then parseGGA rest else PRes.ok none

/-! ### Histogram builder (`histogram`, lines 269-313 of `main.rs`) and the
per-bin count vectors that `main` builds from it (lines 68-91) -/

/-- Model of the Rust range `lo..hi` over `i32`: the integers from `lo`
(inclusive) to `hi` (exclusive). -/
def rangeInt (lo hi : ℤ) : List ℤ :=
  (List.range (hi - lo).toNat).map (fun k : ℕ => lo + (k : ℤ))

/-- Lines 276-282 of `main.rs`: the boundary values
`(-(cutoff*div)..(cutoff*div)).map(|i| (i as f64) / (div as f64) * std_dev + avg)`
with `cutoff = 3`, `div = 6`, for one axis (`c` is `r_variable(&avg)` and
`s` is `r_variable(&std_dev)`). -/
def boundariesFor (c s : ℚ) : List ℚ :=
  (rangeInt (-(3 * 6)) (3 * 6)).map (fun i : ℤ => (i : ℚ) / (6 : ℚ) * s + c)

/-- Model of `Iterator::enumerate` starting at index `k`. -/
def enumerateFrom (k : ℕ) : List ℚ → List (ℕ × ℚ)
  | [] => []
  | x :: xs => (k, x) :: enumerateFrom (k + 1) xs

/-- Model of `Iterator::enumerate`. -/
def enumerate (l : List ℚ) : List (ℕ × ℚ) := enumerateFrom 0 l

/-- Lines 283-287 of `main.rs`: `position_set.sort_by(partial_cmp on the
axis value)`.  Rust's `sort_by` is a stable ascending sort, whose output is
uniquely determined by the key order, so insertion sort is an exact model.
(The `partial_cmp ... .expect` panic on incomparable values cannot fire in
the rational model, where the order is total.) -/
def sortByKey (r : Vec3 → ℚ) (ps : List Vec3) : List Vec3 :=
  ps.insertionSort (fun a b => r a ≤ r b)

/-- The inner `while let Some((idx, val)) = range.peek()` loop of lines
298-305 for one position: advances the boundary iterator past every
boundary `val` with `val ≤ r pos`. -/
def advance (r : Vec3 → ℚ) (pos : Vec3) : List (ℕ × ℚ) → List (ℕ × ℚ)
  | [] => []
  | (i, b) :: rest => if r pos < b then (i, b) :: rest else advance r pos rest

/-- Lines 297-306 of `main.rs`: the tagging loop.  For each position (in
sorted order) the shared boundary iterator is advanced until its head
exceeds the position's axis value, and the pair `(index, position)` is
pushed; if the iterator runs out, the position is silently dropped. -/
def histLoop (r : Vec3 → ℚ) : List Vec3 → List (ℕ × ℚ) → List (ℕ × Vec3)
  | [], _ => []
  | pos :: ps, range =>
    match advance r pos range with
    | [] => histLoop r ps []
    | q :: rest => (q.1, pos) :: histLoop r ps (q :: rest)

/-- Lines 269-313 of `main.rs`: `histogram`.  Returns the tagged positions
with the synthetic underflow index `0` filtered out (line 310), together
with `division_values`, the list of consecutive boundary pairs (lines
289-293: the boundary list zipped with itself shifted by one). -/
def histogram (positions : List Vec3) (r : Vec3 → ℚ) (stats : Vec3 × Vec3) :
    List (ℕ × Vec3) × List (ℚ × ℚ) :=
  let bs := boundariesFor (r stats.1) (r stats.2)
  let division_values := bs.zip (bs.drop 1)
  let sorted := sortByKey r positions
  let hist := histLoop r sorted (enumerate bs)
  (hist.filter (fun p => p.1 != 0), division_values)

/-- One step of `histogram_val[idx] = histogram_val[idx] + 1` (lines 71-73):
increments position `i` of the list, or `none` (an index-out-of-bounds
panic) when `i` is past the end. -/
def bumpAt : List ℕ → ℕ → Option (List ℕ)
  | [], _ => none
  | c :: cs, 0 => some ((c + 1) :: cs)
  | c :: cs, n + 1 => (bumpAt cs n).map (c :: ·)

/-- Lines 68-75 of `main.rs` (one axis): build `vec![0; len]` and increment
at each tagged index; `none` models the out-of-bounds panic. -/
def histogram_val (idxs : List ℕ) (len : ℕ) : Option (List ℕ) :=
  idxs.foldlM (fun acc i => bumpAt acc i) (List.replicate len 0)

/-- The per-axis count vector exactly as `main` wires it (lines 64-75): the
tag indices of `histogram`'s first output, counted into a vector whose
length is that of `division_values`. -/
def mainCounts (positions : List Vec3) (r : Vec3 → ℚ) (stats : Vec3 × Vec3) :
    Option (List ℕ) :=
  let h := histogram positions r stats
  histogram_val (h.1.map Prod.fst) h.2.length

/-- Worded from the specification (§4.4): the `j`-th boundary point for an
axis with reference mean `c` and standard deviation `s` — `36` linearly
spaced values in steps of `s / 6`, starting at `c - 3 * s`. -/
def bnd (c s : ℚ) (j : ℕ) : ℚ := ((j : ℚ) - 18) / 6 * s + c

/-! ### Componentwise arithmetic lemmas -/

@[simp] lemma add_x (a b : Vec3) : (a + b).x = a.x + b.x := rfl

@[simp] lemma add_y (a b : Vec3) : (a + b).y = a.y + b.y := rfl

@[simp] lemma add_z (a b : Vec3) : (a + b).z = a.z + b.z := rfl

@[simp] lemma sub_x (a b : Vec3) : (a - b).x = a.x - b.x := rfl

@[simp] lemma sub_y (a b : Vec3) : (a - b).y = a.y - b.y := rfl

@[simp] lemma sub_z (a b : Vec3) : (a - b).z = a.z - b.z := rfl

@[simp] lemma zero_x : (0 : Vec3).x = 0 := rfl

@[simp] lemma zero_y : (0 : Vec3).y = 0 := rfl

@[simp] lemma zero_z : (0 : Vec3).z = 0 := rfl

lemma fsqrt_zero : fsqrt 0 = 0 := by decide

lemma Vec3.ext3 {a b : Vec3} (hx : a.x = b.x) (hy : a.y = b.y)
    (hz : a.z = b.z) : a = b := by
  cases a; cases b; cases hx; cases hy; cases hz; rfl

lemma sumVec_foldl (l : List Vec3) :
    ∀ init : Vec3,
      l.foldl (· + ·) init =
        ⟨init.x + (l.map Vec3.x).sum, init.y + (l.map Vec3.y).sum,
          init.z + (l.map Vec3.z).sum⟩ := by
  induction l with
  | nil => intro init; simp
  | cons h t ih =>
    intro init
    simp only [List.foldl_cons, ih, List.map_cons, List.sum_cons]
    refine Vec3.ext3 ?_ ?_ ?_ <;> simp <;> ring

lemma sumVec_parts (l : List Vec3) :
    sumVec l = ⟨(l.map Vec3.x).sum, (l.map Vec3.y).sum, (l.map Vec3.z).sum⟩ := by
  simpa using sumVec_foldl l 0

/-! ### C1 / C5 : the statistics engine -/

/-- C1 (code evaluated at the failing input): on an empty position set the
program raises no `StatisticsError` — no such error exists in the code.
Instead the mean is computed as `0/0` on every axis (a non-finite NaN,
`avgChecked [] = none`), the `usize` subtraction `n - 1` underflows
(`sub1Checked 0 = none`), and on every non-empty set the same code silently
produces a numeric value, confirming that no error path guards `n = 0`. -/
theorem stats_zero_positions_nan :
    avgChecked ([] : List Vec3) = none ∧
    sub1Checked (List.length ([] : List Vec3)) = none ∧
    ∀ ps : List Vec3, ps ≠ [] → avgChecked ps = some (avg ps) := by
  refine ⟨by decide, by decide, ?_⟩
  intro ps hps
  have hn : (ps.length : ℚ) ≠ 0 := by
    simpa [Nat.cast_eq_zero, List.length_eq_zero] using hps
  simp [avgChecked, fdivChecked, hn, avg, Vec3.divScalar]

/-- Witness for `stats_zero_positions_nan` at the singleton list. -/
theorem stats_zero_positions_nan_w :
    ([⟨1, 1, 1⟩] : List Vec3) ≠ [] ∧
    avgChecked [⟨1, 1, 1⟩] = some (avg [⟨1, 1, 1⟩]) :=
  ⟨by decide, stats_zero_positions_nan.2.2 _ (by decide)⟩

/-- C5: per axis independently, the mean is `sum(values) / n` (for `n ≥ 1`)
and the standard deviation is `sqrt(sum((v - mean)^2) / (n - 1))` (for
`n ≥ 2`, the Bessel-corrected sample deviation); on `n` identical positions
the mean is that position and the standard deviation is `0` on every axis. -/
theorem compute_stats_spec :
    (∀ ps : List Vec3, 1 ≤ ps.length →
      avg ps = ⟨(ps.map Vec3.x).sum / (ps.length : ℚ),
                (ps.map Vec3.y).sum / (ps.length : ℚ),
                (ps.map Vec3.z).sum / (ps.length : ℚ)⟩) ∧
    (∀ ps : List Vec3, 2 ≤ ps.length →
      std_dev ps =
        ⟨fsqrt ((ps.map (fun v => (v.x - (avg ps).x) * (v.x - (avg ps).x))).sum /
            ((ps.length : ℚ) - 1)),
         fsqrt ((ps.map (fun v => (v.y - (avg ps).y) * (v.y - (avg ps).y))).sum /
            ((ps.length : ℚ) - 1)),
         fsqrt ((ps.map (fun v => (v.z - (avg ps).z) * (v.z - (avg ps).z))).sum /
            ((ps.length : ℚ) - 1))⟩) ∧
    (∀ (n : ℕ) (v : Vec3), 1 ≤ n → avg (List.replicate n v) = v) ∧
    (∀ (n : ℕ) (v : Vec3), 2 ≤ n → std_dev (List.replicate n v) = ⟨0, 0, 0⟩) := by
  have havg : ∀ ps : List Vec3,
      avg ps = ⟨(ps.map Vec3.x).sum / (ps.length : ℚ),
                (ps.map Vec3.y).sum / (ps.length : ℚ),
                (ps.map Vec3.z).sum / (ps.length : ℚ)⟩ := by
    intro ps
    simp [avg, sumVec_parts, Vec3.divScalar]
  have hrep : ∀ (n : ℕ) (v : Vec3), 1 ≤ n → avg (List.replicate n v) = v := by
    intro n v hn
    have hne : (n : ℚ) ≠ 0 := Nat.cast_ne_zero.mpr (by omega)
    rw [havg]
    simp only [List.map_replicate, List.sum_replicate, List.length_replicate,
      nsmul_eq_mul]
    refine Vec3.ext3 ?_ ?_ ?_ <;>
      simp [mul_div_cancel_left₀ _ hne]
  refine ⟨fun ps _ => havg ps, ?_, hrep, ?_⟩
  · intro ps hps
    have h1 : 1 ≤ ps.length := le_trans (by norm_num) hps
    have hcast : ((ps.length - 1 : ℕ) : ℚ) = (ps.length : ℚ) - 1 := by
      have h := Nat.cast_sub (R := ℚ) h1
      simpa using h
    unfold std_dev
    rw [sumVec_parts]
    refine Vec3.ext3 ?_ ?_ ?_ <;>
      simp only [Vec3.divScalar, Vec3.fsqrtVec, List.map_map, hcast] <;> rfl
  · intro n v hn
    have h1 : 1 ≤ n := le_trans (by norm_num) hn
    have hv : avg (List.replicate n v) = v := hrep n v h1
    simp only [std_dev, hv]
    have hvv : (v - v).sq = (0 : Vec3) := by
      refine Vec3.ext3 ?_ ?_ ?_ <;> simp [Vec3.sq]
    have hmap : (List.replicate n v).map (fun r => (r - v).sq) =
        List.replicate n (0 : Vec3) := by
      rw [List.map_replicate, hvv]
    rw [hmap, sumVec_parts]
    simp [Vec3.divScalar, Vec3.fsqrtVec, fsqrt_zero]

/-- Witness for `compute_stats_spec` on two identical positions. -/
theorem compute_stats_spec_w :
    2 ≤ (List.replicate 2 (⟨1, 2, 3⟩ : Vec3)).length ∧
    avg (List.replicate 2 (⟨1, 2, 3⟩ : Vec3)) = ⟨1, 2, 3⟩ ∧
    std_dev (List.replicate 2 (⟨1, 2, 3⟩ : Vec3)) = ⟨0, 0, 0⟩ :=
  ⟨by decide, compute_stats_spec.2.2.1 2 ⟨1, 2, 3⟩ (by decide),
    compute_stats_spec.2.2.2 2 ⟨1, 2, 3⟩ (by decide)⟩

/-! ### C2 : the outlier filter -/

lemma filterPred_eq_decide (m s v : Vec3) :
    filterPred m s v = decide (specRetains m s v) := by
  simp [filterPred, specRetains, Bool.and_assoc]

/-- C2: the outlier filter (with `k = 3`) retains exactly the positions
lying strictly between `mean - 3*stddev` and `mean + 3*stddev` on all three
axes, where the reference statistics are those of the unfiltered list, and
the reported statistics are recomputed on the filtered list. -/
theorem outlier_filter_spec (ps : List Vec3) :
    positions_filtered ps =
      ps.filter (fun v => decide (specRetains (avg ps) (std_dev ps) v)) ∧
    avg_filtered ps = avg (positions_filtered ps) ∧
    std_dev_filtered ps = std_dev (positions_filtered ps) := by
  refine ⟨?_, rfl, rfl⟩
  unfold positions_filtered
  exact List.filter_congr (fun x _ => filterPred_eq_decide _ _ x)

/-! ### C4 / C8 / C10 : the sentence parser -/

lemma parse_line_gga (line : String) (rest : List String)
    (h : splitComma line = "$GPGGA" :: rest) :
    parse_line line = parseGGA rest := by
  simp [parse_line, h]

/-- C4: on a recognized `$GPGGA` sentence with the correct field count and
numeric latitude/longitude fields, the decoded values are
`degrees + minutes/60` using the 2-digit (latitude) / 3-digit (longitude)
degree prefix, signed `+` for `N`/`E` and `-` for `S`/`W`; any other
hemisphere letter makes `parse_line` return an error. -/
theorem parse_gga_decode
    (line p0 p1 p2 p3 p4 p5 p6 p7 p8 p9 p10 p11 p12 p13 : String)
    (latDeg latMin lonDeg lonMin ele : ℚ)
    (hsplit : splitComma line =
      ["$GPGGA", p0, p1, p2, p3, p4, p5, p6, p7, p8, p9, p10, p11, p12, p13])
    (h1 : 2 ≤ p1.length) (h3 : 3 ≤ p3.length)
    (hlatd : parseF64 (strTake p1 2) = some latDeg)
    (hlatm : parseF64 (strDrop p1 2) = some latMin)
    (hlond : parseF64 (strTake p3 3) = some lonDeg)
    (hlonm : parseF64 (strDrop p3 3) = some lonMin) :
    ((p2 = "N" ∨ p2 = "S") → (p4 = "E" ∨ p4 = "W") → parseF64 p8 = some ele →
      parse_line line = PRes.ok (some
        ⟨(if p2 = "N" then 1 else -1) * (latDeg + latMin / 60),
         (if p4 = "E" then 1 else -1) * (lonDeg + lonMin / 60), ele⟩)) ∧
    ((¬(p2 = "N" ∨ p2 = "S") ∨ ¬(p4 = "E" ∨ p4 = "W")) →
      parse_line line = PRes.err) := by
  rw [parse_line_gga line _ hsplit]
  have h1' : ¬ p1.length < 2 := not_lt.mpr h1
  have h3' : ¬ p3.length < 3 := not_lt.mpr h3
  constructor
  · intro hns hew hele
    rcases hns with hN | hS <;> rcases hew with hE | hW <;>
      subst p2 <;> subst p4 <;>
      simp [parseGGA, h1', h3', hlatd, hlatm, hlond, hlonm, hele]
  · intro hbad
    simp only [parseGGA, h1', h3', if_false, hlatd, hlatm, hlond, hlonm]
    rcases hele : parseF64 p8 with _ | e
    · simp [hele, h3']
    · push_neg at hbad
      rcases hbad with ⟨hN, hS⟩ | ⟨hE, hW⟩
      · simp [hele, h3', hN, hS]
      · by_cases hN : p2 = "N" <;> by_cases hS : p2 = "S" <;>
          simp [hele, h3', hN, hS, hE, hW]

/-- Witness for `parse_gga_decode` on the specification's example sentence
(§8): `$GPGGA,123519,4807.038,N,01131.000,E,1,08,0.9,545.4,...` decodes to
`(48.1173, 11.5167, 545.4)`, and flipping the hemisphere letter to an
invalid one gives an error. -/
theorem parse_gga_decode_w :
    parse_line "$GPGGA,123519,4807.038,N,01131.000,E,1,08,0.9,545.4,M,46.9,M,," =
      PRes.ok (some ⟨(1 : ℚ) * (48 + (3519 / 500) / 60),
        (1 : ℚ) * (11 + 31 / 60), 2727 / 5⟩) ∧
    parse_line "$GPGGA,123519,4807.038,Q,01131.000,E,1,08,0.9,545.4,M,46.9,M,," =
      PRes.err := by
  constructor
  · have h := (parse_gga_decode
      "$GPGGA,123519,4807.038,N,01131.000,E,1,08,0.9,545.4,M,46.9,M,,"
      "123519" "4807.038" "N" "01131.000" "E" "1" "08" "0.9" "545.4" "M"
      "46.9" "M" "" "" 48 (3519 / 500) 11 31 (2727 / 5)
      (by decide) (by decide) (by decide) (by decide) (by decide)
      (by decide) (by decide)).1 (Or.inl rfl) (Or.inl rfl) (by decide)
    simpa using h
  · have h := (parse_gga_decode
      "$GPGGA,123519,4807.038,Q,01131.000,E,1,08,0.9,545.4,M,46.9,M,,"
      "123519" "4807.038" "Q" "01131.000" "E" "1" "08" "0.9" "545.4" "M"
      "46.9" "M" "" "" 48 (3519 / 500) 11 31 (2727 / 5)
      (by decide) (by decide) (by decide) (by decide) (by decide)
      (by decide) (by decide)).2 (Or.inl (by decide))
    exact h

/-- Counterexample to C8: a recognized, otherwise well-formed `$GPGGA`
sentence whose altitude field is structurally absent (empty, as in a no-fix
record) makes `parse_line` return an error, not `Ok(None)`. -/
theorem parse_line_empty_altitude_err :
    parse_line "$GPGGA,123519,4807.038,N,01131.000,E,0,00,0.9,,M,,M,," =
      PRes.err := by decide

/-- C8 (amended): a line whose first comma-field is not `$GPGGA` always
yields `Ok(None)`; but a recognized sentence with a structurally absent
field does not: an empty altitude field yields `Err` and an empty latitude
field panics in `str::split_at`. -/
theorem parse_line_unrecognized_none :
    (∀ line : String, (splitComma line).head? ≠ some "$GPGGA" →
      parse_line line = PRes.ok none) ∧
    parse_line "$GPGGA,123519,4807.038,N,01131.000,E,0,00,0.9,0.9,M,,M,," ≠
      PRes.ok none ∧
    parse_line "$GPGGA,123519,,N,01131.000,E,0,00,0.9,545.4,M,46.9,M,," =
      PRes.panic := by
  refine ⟨?_, by decide, by decide⟩
  intro line h
  unfold parse_line
  rcases hl : splitComma line with _ | ⟨f, rest⟩
  · rfl
  · rw [hl] at h
    simp only [List.head?_cons, ne_eq, Option.some.injEq] at h
    simp [h]

/-- Witness for `parse_line_unrecognized_none` on a `$GPRMC` line. -/
theorem parse_line_unrecognized_none_w :
    (splitComma "$GPRMC,123519,A").head? ≠ some "$GPGGA" ∧
    parse_line "$GPRMC,123519,A" = PRes.ok none :=
  ⟨by decide, parse_line_unrecognized_none.1 _ (by decide)⟩

/-- C10: a recognized `$GPGGA` sentence with the correct field count whose
latitude field is shorter than 2 bytes panics in `str::split_at` (and, when
the latitude field does parse, a longitude field shorter than 3 bytes
panics as well) instead of returning a `ParseError`. -/
theorem parse_line_short_field_panics :
    (∀ (line p0 p1 p2 p3 p4 p5 p6 p7 p8 p9 p10 p11 p12 p13 : String),
      splitComma line =
        ["$GPGGA", p0, p1, p2, p3, p4, p5, p6, p7, p8, p9, p10, p11, p12, p13] →
      p1.length < 2 → parse_line line = PRes.panic) ∧
    (∀ (line p0 p1 p2 p3 p4 p5 p6 p7 p8 p9 p10 p11 p12 p13 : String)
        (latDeg latMin : ℚ),
      splitComma line =
        ["$GPGGA", p0, p1, p2, p3, p4, p5, p6, p7, p8, p9, p10, p11, p12, p13] →
      2 ≤ p1.length →
      parseF64 (strTake p1 2) = some latDeg →
      parseF64 (strDrop p1 2) = some latMin →
      p3.length < 3 → parse_line line = PRes.panic) := by
  constructor
  · intro line p0 p1 p2 p3 p4 p5 p6 p7 p8 p9 p10 p11 p12 p13 hsplit hshort
    rw [parse_line_gga line _ hsplit]
    simp [parseGGA, hshort]
  · intro line p0 p1 p2 p3 p4 p5 p6 p7 p8 p9 p10 p11 p12 p13 latDeg latMin
      hsplit h1 hlatd hlatm hshort
    rw [parse_line_gga line _ hsplit]
    simp [parseGGA, not_lt.mpr h1, hlatd, hlatm, hshort]

/-- Witness for `parse_line_short_field_panics`: a 1-byte latitude field and
a 2-byte longitude field each panic. -/
theorem parse_line_short_field_panics_w :
    parse_line "$GPGGA,123519,4,N,01131.000,E,1,08,0.9,545.4,M,46.9,M,," =
      PRes.panic ∧
    parse_line "$GPGGA,123519,4807.038,N,01,E,1,08,0.9,545.4,M,46.9,M,," =
      PRes.panic :=
  ⟨parse_line_short_field_panics.1
      "$GPGGA,123519,4,N,01131.000,E,1,08,0.9,545.4,M,46.9,M,,"
      "123519" "4" "N" "01131.000" "E" "1" "08" "0.9" "545.4" "M" "46.9" "M"
      "" "" (by decide) (by decide),
    parse_line_short_field_panics.2
      "$GPGGA,123519,4807.038,N,01,E,1,08,0.9,545.4,M,46.9,M,,"
      "123519" "4807.038" "N" "01" "E" "1" "08" "0.9" "545.4" "M" "46.9" "M"
      "" "" 48 (3519 / 500) (by decide) (by decide) (by decide) (by decide)
      (by decide)⟩

/-! ### Histogram: loop characterization -/

lemma advance_eq_dropWhile (r : Vec3 → ℚ) (pos : Vec3) (rs : List (ℕ × ℚ)) :
    advance r pos rs = rs.dropWhile (fun q => decide (q.2 ≤ r pos)) := by
  induction rs with
  | nil => rfl
  | cons q rest ih =>
    rcases q with ⟨i, b⟩
    by_cases h : r pos < b
    · simp [advance, h, List.dropWhile_cons, not_le.mpr h]
    · simp [advance, h, List.dropWhile_cons, not_lt.mp h, ih]

lemma histLoop_nil_range (r : Vec3 → ℚ) (ps : List Vec3) :
    histLoop r ps [] = [] := by
  induction ps with
  | nil => rfl
  | cons p t ih => simp [histLoop, advance, ih]

lemma find?_dropWhile_le (x y : ℚ) (h : y ≤ x) (rs : List (ℕ × ℚ)) :
    (rs.dropWhile (fun q => decide (q.2 ≤ y))).find?
        (fun q => decide (x < q.2)) =
      rs.find? (fun q => decide (x < q.2)) := by
  induction rs with
  | nil => rfl
  | cons q rest ih =>
    by_cases hq : q.2 ≤ y
    · have hx : ¬ x < q.2 := not_lt.mpr (le_trans hq h)
      simp [List.dropWhile_cons, hq, List.find?_cons, hx, ih]
    · simp [List.dropWhile_cons, hq]

lemma find?_of_dropWhile_cons (x : ℚ) :
    ∀ (rs rest : List (ℕ × ℚ)) (q : ℕ × ℚ),
      rs.dropWhile (fun a => decide (a.2 ≤ x)) = q :: rest →
      rs.find? (fun a => decide (x < a.2)) = some q := by
  intro rs
  induction rs with
  | nil => intro rest q h; simp at h
  | cons a t ih =>
    intro rest q h
    by_cases ha : a.2 ≤ x
    · rw [List.dropWhile_cons] at h
      simp only [ha, decide_True] at h
      rw [List.find?_cons_of_neg _ (by simpa using not_lt.mpr ha)]
      exact ih rest q h
    · rw [List.dropWhile_cons] at h
      simp only [ha, decide_False] at h
      rw [List.find?_cons_of_pos _ (by simpa using not_le.mp ha)]
      exact congrArg some (List.cons.injEq .. |>.mp h).1

/-- The tagging loop of `histogram`, on a list sorted by the axis key,
computes for each position the first boundary pair whose value exceeds the
position's key (and drops the position when there is none). -/
lemma histLoop_eq_filterMap (r : Vec3 → ℚ) :
    ∀ (ps : List Vec3) (rs : List (ℕ × ℚ)),
      ps.Sorted (fun a b => r a ≤ r b) →
      histLoop r ps rs =
        ps.filterMap (fun p =>
          (rs.find? (fun q => decide (r p < q.2))).map (fun q => (q.1, p))) := by
  intro ps
  induction ps with
  | nil => intro rs _; rfl
  | cons p t ih =>
    intro rs hsorted
    rcases List.sorted_cons.mp hsorted with ⟨hhead, htail⟩
    rw [List.filterMap_cons]
    rcases hadv : advance r p rs with _ | ⟨q, rest⟩
    · have hadv' := hadv
      rw [advance_eq_dropWhile] at hadv'
      have hall : ∀ q ∈ rs, q.2 ≤ r p := by
        intro q hq
        have := (List.dropWhile_eq_nil_iff).mp hadv' q hq
        simpa using this
      have hnone : rs.find? (fun q => decide (r p < q.2)) = none := by
        rw [List.find?_eq_none]
        intro q hq
        simpa using not_lt.mpr (hall q hq)
      simp only [histLoop, hadv, hnone, Option.map_none', histLoop_nil_range]
      symm
      rw [List.filterMap_eq_nil_iff]
      intro v hv
      have hnone' : rs.find? (fun q => decide (r v < q.2)) = none := by
        rw [List.find?_eq_none]
        intro q hq
        simpa using not_lt.mpr (le_trans (hall q hq) (hhead v hv))
      simp [hnone']
    · have hadv' := hadv
      rw [advance_eq_dropWhile] at hadv'
      have hfind : rs.find? (fun a => decide (r p < a.2)) = some q :=
        find?_of_dropWhile_cons (r p) rs rest q hadv'
      simp only [histLoop, hadv, hfind, Option.map_some']
      congr 1
      rw [ih (q :: rest) htail]
      apply List.filterMap_congr
      intro v hv
      have hy : r p ≤ r v := hhead v hv
      have : ((q :: rest).find? (fun a => decide (r v < a.2))) =
          rs.find? (fun a => decide (r v < a.2)) := by
        rw [← hadv, advance_eq_dropWhile]
        exact find?_dropWhile_le (r v) (r p) hy rs
      rw [this]

/-! ### Histogram: boundary values and tag characterization -/

lemma boundariesFor_eq (c s : ℚ) :
    boundariesFor c s = (List.range 36).map (bnd c s) := by
  unfold boundariesFor rangeInt
  have h36 : ((3 * 6 : ℤ) - -(3 * 6)).toNat = 36 := by decide
  rw [h36, List.map_map]
  have hfun : ((fun i : ℤ => (i : ℚ) / (6 : ℚ) * s + c) ∘
      (fun k : ℕ => (-(3 * 6) : ℤ) + (k : ℤ))) = bnd c s := by
    funext k
    show (((-(3 * 6) : ℤ) + (k : ℤ) : ℤ) : ℚ) / 6 * s + c = bnd c s k
    unfold bnd
    push_cast
    ring
  rw [hfun]

lemma bnd_mono (c s : ℚ) (hs : 0 ≤ s) {i j : ℕ} (hij : i ≤ j) :
    bnd c s i ≤ bnd c s j := by
  unfold bnd
  have hij' : (i : ℚ) ≤ (j : ℚ) := by exact_mod_cast hij
  have h6 : ((i : ℚ) - 18) / 6 ≤ ((j : ℚ) - 18) / 6 := by linarith
  have := mul_le_mul_of_nonneg_right h6 hs
  linarith

lemma find_enumFrom_range (g : ℕ → ℚ) (x : ℚ) :
    ∀ (n a k : ℕ),
      ((enumerateFrom k ((List.range' a n).map g)).find?
          (fun q => decide (x < q.2)) = none ↔ ∀ t < n, g (a + t) ≤ x) ∧
      (∀ p, (enumerateFrom k ((List.range' a n).map g)).find?
          (fun q => decide (x < q.2)) = some p →
        ∃ j, j < n ∧ p = (k + j, g (a + j)) ∧ x < g (a + j) ∧
          ∀ t < j, g (a + t) ≤ x) ∧
      (∀ j, j < n → x < g (a + j) → (∀ t < j, g (a + t) ≤ x) →
        (enumerateFrom k ((List.range' a n).map g)).find?
            (fun q => decide (x < q.2)) = some (k + j, g (a + j))) := by
  intro n
  induction n with
  | zero =>
    intro a k
    refine ⟨by simp [enumerateFrom], by simp [enumerateFrom], ?_⟩
    intro j hj
    omega
  | succ n ih =>
    intro a k
    rw [List.range'_succ, List.map_cons]
    simp only [enumerateFrom]
    by_cases hxa : x < g a
    · rw [List.find?_cons_of_pos _ (by simpa using hxa)]
      refine ⟨?_, ?_, ?_⟩
      · constructor
        · intro h; exact absurd h (by simp)
        · intro h
          exact absurd (h 0 (by omega)) (by simpa using hxa)
      · intro p hp
        refine ⟨0, by omega, ?_, by simpa using hxa, by omega⟩
        simpa using hp.symm
      · intro j hj hxj hprev
        rcases Nat.eq_zero_or_pos j with hj0 | hjpos
        · subst hj0; simp
        · exact absurd (hprev 0 hjpos) (by simpa using hxa)
    · rw [List.find?_cons_of_neg _ (by simpa using hxa)]
      have hga : g a ≤ x := not_lt.mp hxa
      rcases ih (a + 1) (k + 1) with ⟨ihnone, ihsome, ihfind⟩
      refine ⟨?_, ?_, ?_⟩
      · rw [ihnone]
        constructor
        · intro h t ht
          rcases Nat.eq_zero_or_pos t with ht0 | htpos
          · subst ht0; simpa using hga
          · have := h (t - 1) (by omega)
            have harw : a + 1 + (t - 1) = a + t := by omega
            rwa [harw] at this
        · intro h t ht
          have := h (t + 1) (by omega)
          have harw : a + (t + 1) = a + 1 + t := by omega
          rwa [harw] at this
      · intro p hp
        rcases ihsome p hp with ⟨j, hj, hp_eq, hxj, hprev⟩
        refine ⟨j + 1, by omega, ?_, ?_, ?_⟩
        · rw [hp_eq]
          have h1 : k + 1 + j = k + (j + 1) := by omega
          have h2 : a + 1 + j = a + (j + 1) := by omega
          rw [h1, h2]
        · have h2 : a + 1 + j = a + (j + 1) := by omega
          rwa [h2] at hxj
        · intro t ht
          rcases Nat.eq_zero_or_pos t with ht0 | htpos
          · subst ht0; simpa using hga
          · have := hprev (t - 1) (by omega)
            have harw : a + 1 + (t - 1) = a + t := by omega
            rwa [harw] at this
      · intro j hj hxj hprev
        rcases Nat.eq_zero_or_pos j with hj0 | hjpos
        · subst hj0
          exact absurd hxj (by simpa using hga)
        · have hx1 : x < g (a + 1 + (j - 1)) := by
            have harw : a + 1 + (j - 1) = a + j := by omega
            rwa [harw]
          have hpr : ∀ t < j - 1, g (a + 1 + t) ≤ x := by
            intro t ht
            have := hprev (t + 1) (by omega)
            have harw : a + (t + 1) = a + 1 + t := by omega
            rwa [harw] at this
          have := ihfind (j - 1) (by omega) hx1 hpr
          rw [this]
          have h1 : k + 1 + (j - 1) = k + j := by omega
          have h2 : a + 1 + (j - 1) = a + j := by omega
          rw [h1, h2]

/-- The boundary search of the tagging loop, ready for the concrete
boundary list of `histogram`. -/
def bsFind (c s x : ℚ) : Option (ℕ × ℚ) :=
  (enumerate (boundariesFor c s)).find? (fun q => decide (x < q.2))

lemma bsFind_char (c s x : ℚ) :
    (bsFind c s x = none ↔ ∀ t < 36, bnd c s t ≤ x) ∧
    (∀ p, bsFind c s x = some p →
      ∃ j, j < 36 ∧ p = (j, bnd c s j) ∧ x < bnd c s j ∧
        ∀ t < j, bnd c s t ≤ x) ∧
    (∀ j, j < 36 → x < bnd c s j → (∀ t < j, bnd c s t ≤ x) →
      bsFind c s x = some (j, bnd c s j)) := by
  have h := find_enumFrom_range (bnd c s) x 36 0 0
  have hrw : enumerateFrom 0 ((List.range' 0 36).map (bnd c s)) =
      enumerate (boundariesFor c s) := by
    rw [boundariesFor_eq, List.range_eq_range']
    rfl
  rw [hrw] at h
  simpa [bsFind] using h

lemma bsFind_none_iff (c s x : ℚ) (hs : 0 ≤ s) :
    bsFind c s x = none ↔ bnd c s 35 ≤ x := by
  rw [(bsFind_char c s x).1]
  constructor
  · intro h; exact h 35 (by omega)
  · intro h t ht
    exact le_trans (bnd_mono c s hs (by omega : t ≤ 35)) h

lemma sortByKey_sorted (r : Vec3 → ℚ) (ps : List Vec3) :
    (sortByKey r ps).Sorted (fun a b => r a ≤ r b) := by
  haveI : IsTotal Vec3 (fun a b => r a ≤ r b) :=
    ⟨fun a b => le_total (r a) (r b)⟩
  haveI : IsTrans Vec3 (fun a b => r a ≤ r b) :=
    ⟨fun _ _ _ hab hbc => le_trans hab hbc⟩
  exact List.sorted_insertionSort _ ps

lemma sortByKey_perm (r : Vec3 → ℚ) (ps : List Vec3) :
    (sortByKey r ps).Perm ps :=
  List.perm_insertionSort _ ps

/-- The first output of `histogram`, through the loop characterization: the
sorted positions, each tagged with the first boundary index whose value
exceeds the position's key, untagged positions dropped, then the underflow
index `0` filtered away. -/
lemma histogram_fst_char (ps : List Vec3) (r : Vec3 → ℚ) (stats : Vec3 × Vec3) :
    (histogram ps r stats).1 =
      ((sortByKey r ps).filterMap (fun p =>
        (bsFind (r stats.1) (r stats.2) (r p)).map (fun q => (q.1, p)))).filter
        (fun p => p.1 != 0) := by
  show ((histLoop r (sortByKey r ps)
      (enumerate (boundariesFor (r stats.1) (r stats.2)))).filter
        (fun p => p.1 != 0)) = _
  rw [histLoop_eq_filterMap r (sortByKey r ps) _ (sortByKey_sorted r ps)]
  rfl

lemma zip_shift (g : ℕ → ℚ) :
    ∀ (n a : ℕ),
      ((List.range' a (n + 1)).map g).zip (((List.range' a (n + 1)).map g).drop 1) =
        (List.range' a n).map (fun j => (g j, g (j + 1))) := by
  intro n
  induction n with
  | zero => intro a; simp [List.range'_succ]
  | succ n ih =>
    intro a
    rw [List.range'_succ, List.map_cons]
    rw [show List.range' (a + 1) (n + 1) = (a + 1) :: List.range' (a + 1 + 1) n from
      List.range'_succ (a + 1) n 1]
    rw [List.range'_succ, List.map_cons]
    simp only [List.drop_succ_cons, List.drop_zero, List.zip_cons_cons]
    have := ih (a + 1)
    rw [List.range'_succ, List.map_cons] at this
    simp only [List.drop_succ_cons, List.drop_zero] at this
    rw [this, List.map_cons]

/-- The second output of `histogram` (`division_values`): the `35`
consecutive boundary pairs, a function of the reference statistics only. -/
lemma histogram_snd (ps : List Vec3) (r : Vec3 → ℚ) (stats : Vec3 × Vec3) :
    (histogram ps r stats).2 =
      (List.range 35).map (fun j =>
        (bnd (r stats.1) (r stats.2) j, bnd (r stats.1) (r stats.2) (j + 1))) := by
  show (boundariesFor (r stats.1) (r stats.2)).zip
      ((boundariesFor (r stats.1) (r stats.2)).drop 1) = _
  rw [boundariesFor_eq, List.range_eq_range', List.range_eq_range']
  exact zip_shift (bnd (r stats.1) (r stats.2)) 35 0

/-- C3 (amended): positions below the first boundary are tagged with the
synthetic underflow index `0` and always removed from the output; but
positions at or above the last boundary are not counted in the final bin —
they are dropped entirely and appear in no output entry. -/
theorem histogram_edge_bins (ps : List Vec3) (r : Vec3 → ℚ) (stats : Vec3 × Vec3)
    (hs : 0 ≤ r stats.2) :
    (∀ e ∈ (histogram ps r stats).1, e.1 ≠ 0) ∧
    (∀ v : Vec3, r v < bnd (r stats.1) (r stats.2) 0 →
      v ∉ (histogram ps r stats).1.map Prod.snd) ∧
    (∀ v : Vec3, bnd (r stats.1) (r stats.2) 35 ≤ r v →
      v ∉ (histogram ps r stats).1.map Prod.snd) := by
  rw [histogram_fst_char]
  refine ⟨?_, ?_, ?_⟩
  · intro e he
    have := (List.mem_filter.mp he).2
    simpa using this
  · intro v hv hmem
    rcases List.mem_map.mp hmem with ⟨e, he, hev⟩
    have hef := (List.mem_filter.mp he).1
    have hne := (List.mem_filter.mp he).2
    rcases List.mem_filterMap.mp hef with ⟨p, _, hfp⟩
    rcases hop : bsFind (r stats.1) (r stats.2) (r p) with _ | q
    · rw [hop] at hfp; simp at hfp
    · rw [hop] at hfp
      simp only [Option.map_some'] at hfp
      have he2 : (q.1, p) = e := by simpa using hfp
      have hpv : p = v := by rw [← he2] at hev; exact hev
      subst hpv
      rcases ((bsFind_char (r stats.1) (r stats.2) (r p)).2.1 q hop) with
        ⟨j, _, hq, _, hprev⟩
      have hj0 : j ≠ 0 := by
        intro h0
        rw [← he2, hq] at hne
        subst h0
        simp at hne
      have := hprev 0 (by omega)
      exact absurd hv (not_lt.mpr this)
  · intro v hv hmem
    rcases List.mem_map.mp hmem with ⟨e, he, hev⟩
    have hef := (List.mem_filter.mp he).1
    rcases List.mem_filterMap.mp hef with ⟨p, _, hfp⟩
    rcases hop : bsFind (r stats.1) (r stats.2) (r p) with _ | q
    · rw [hop] at hfp; simp at hfp
    · rw [hop] at hfp
      simp only [Option.map_some'] at hfp
      have he2 : (q.1, p) = e := by simpa using hfp
      have hpv : p = v := by rw [← he2] at hev; exact hev
      subst hpv
      have hnone : bsFind (r stats.1) (r stats.2) (r p) = none :=
        (bsFind_none_iff (r stats.1) (r stats.2) (r p) hs).mpr hv
      rw [hnone] at hop
      exact Option.noConfusion hop

/-- Witness for `histogram_edge_bins`: with reference mean `0` and standard
deviation `1` on the x axis, the underflow value `-5` and the overflow value
`10` both vanish from the histogram output. -/
theorem histogram_edge_bins_w :
    (0 : ℚ) ≤ ((⟨0, 0, 0⟩, ⟨1, 1, 1⟩) : Vec3 × Vec3).2.x ∧
    (⟨-5, 0, 0⟩ : Vec3).x < bnd 0 1 0 ∧
    bnd 0 1 35 ≤ (⟨10, 0, 0⟩ : Vec3).x ∧
    (⟨-5, 0, 0⟩ : Vec3) ∉
      (histogram [⟨-5, 0, 0⟩, ⟨10, 0, 0⟩] (fun v => v.x)
        (⟨0, 0, 0⟩, ⟨1, 1, 1⟩)).1.map Prod.snd ∧
    (⟨10, 0, 0⟩ : Vec3) ∉
      (histogram [⟨-5, 0, 0⟩, ⟨10, 0, 0⟩] (fun v => v.x)
        (⟨0, 0, 0⟩, ⟨1, 1, 1⟩)).1.map Prod.snd :=
  ⟨by decide, by decide, by decide,
    (histogram_edge_bins [⟨-5, 0, 0⟩, ⟨10, 0, 0⟩] (fun v => v.x)
      (⟨0, 0, 0⟩, ⟨1, 1, 1⟩) (by decide)).2.1 ⟨-5, 0, 0⟩ (by decide),
    (histogram_edge_bins [⟨-5, 0, 0⟩, ⟨10, 0, 0⟩] (fun v => v.x)
      (⟨0, 0, 0⟩, ⟨1, 1, 1⟩) (by decide)).2.2 ⟨10, 0, 0⟩ (by decide)⟩

/-- Counterexample to C3: with reference mean `0` and standard deviation `1`,
the position with x value `10` lies at or above the last boundary, yet the
histogram output is empty — the value is dropped, not counted in the final
finite bin. -/
theorem histogram_high_value_dropped :
    bnd 0 1 35 ≤ (10 : ℚ) ∧
    (histogram [⟨10, 0, 0⟩] (fun v => v.x) (⟨0, 0, 0⟩, ⟨1, 1, 1⟩)).1 = [] := by
  constructor
  · decide
  · decide

/-- C9: with reference mean `0` and standard deviation `1`, the position
with x value `27/10` lies in the last interval (between boundary 34 and
boundary 35), is tagged with bin index `35`, while `main`'s per-bin count
vector has length `35` (valid indices `0..34`); incrementing index `35` is
out of bounds and the count construction panics (`mainCounts ... = none`). -/
theorem histogram_last_interval_oob :
    bnd 0 1 34 ≤ (27 / 10 : ℚ) ∧ (27 / 10 : ℚ) < bnd 0 1 35 ∧
    (histogram [⟨27 / 10, 0, 0⟩] (fun v => v.x) (⟨0, 0, 0⟩, ⟨1, 1, 1⟩)).1 =
      [(35, ⟨27 / 10, 0, 0⟩)] ∧
    (histogram [⟨27 / 10, 0, 0⟩] (fun v => v.x) (⟨0, 0, 0⟩, ⟨1, 1, 1⟩)).2.length = 35 ∧
    mainCounts [⟨27 / 10, 0, 0⟩] (fun v => v.x) (⟨0, 0, 0⟩, ⟨1, 1, 1⟩) = none := by
  refine ⟨by decide, by decide, by decide, by decide, by decide⟩

/-- Counterexample to C7: with reference mean `0` and standard deviation `1`
on the x axis, the single position `0` is counted at output index `19`, yet
the boundary pair displayed at index `19` is `(1/6, 1/3)` and no position
lies in that interval — the counts are displaced by one bin from the
displayed intervals. -/
theorem histogram_counts_misaligned :
    (mainCounts [⟨0, 0, 0⟩] (fun v => v.x) (⟨0, 0, 0⟩, ⟨1, 1, 1⟩)).bind
        (fun l => l.get? 19) = some 1 ∧
    (histogram [⟨0, 0, 0⟩] (fun v => v.x) (⟨0, 0, 0⟩, ⟨1, 1, 1⟩)).2.get? 19 =
      some (1 / 6, 1 / 3) ∧
    ([⟨0, 0, 0⟩] : List Vec3).countP
        (fun v => decide ((1 / 6 : ℚ) ≤ v.x ∧ v.x < 1 / 3)) = 0 := by
  refine ⟨by decide, by decide, by decide⟩

/-! ### Histogram: count vectors -/

lemma bumpAt_spec :
    ∀ (l : List ℕ) (i : ℕ), i < l.length →
      ∃ l', bumpAt l i = some l' ∧ l'.length = l.length ∧
        ∀ j : ℕ, l'[j]? = if j = i then l[j]?.map (· + 1) else l[j]? := by
  intro l
  induction l with
  | nil => intro i hi; simp at hi
  | cons c cs ih =>
    intro i hi
    match i with
    | 0 =>
      refine ⟨(c + 1) :: cs, rfl, by simp, ?_⟩
      intro j
      match j with
      | 0 => simp
      | j + 1 => simp
    | n + 1 =>
      rcases ih n (by simpa using hi) with ⟨cs', hcs', hlen, hget⟩
      refine ⟨c :: cs', ?_, by simpa using hlen, ?_⟩
      · show (bumpAt cs n).map (c :: ·) = some (c :: cs')
        rw [hcs']
        rfl
      · intro j
        match j with
        | 0 => simp
        | j + 1 =>
          simp only [List.getElem?_cons_succ, hget j]
          by_cases hj : j = n
          · simp [hj]
          · simp [hj, Nat.succ_ne_succ]

lemma foldlM_bump :
    ∀ (idxs : List ℕ) (acc : List ℕ),
      (∀ i ∈ idxs, i < acc.length) →
      ∃ res, List.foldlM (fun acc i => bumpAt acc i) acc idxs = some res ∧
        res.length = acc.length ∧
        ∀ j : ℕ, res[j]? = acc[j]?.map (· + idxs.countP (fun i => i == j)) := by
  intro idxs
  induction idxs with
  | nil =>
    intro acc _
    refine ⟨acc, rfl, rfl, ?_⟩
    intro j
    rcases h : acc[j]? with _ | c <;> simp
  | cons i is ih =>
    intro acc hmem
    rcases bumpAt_spec acc i (hmem i (by simp)) with ⟨acc', hacc', hlen, hget⟩
    have hmem' : ∀ t ∈ is, t < acc'.length := by
      intro t ht; rw [hlen]; exact hmem t (by simp [ht])
    rcases ih acc' hmem' with ⟨res, hres, hrlen, hrget⟩
    refine ⟨res, ?_, by rw [hrlen, hlen], ?_⟩
    · rw [List.foldlM_cons, hacc']
      exact hres
    · intro j
      rw [hrget j, hget j]
      by_cases hij : i = j
      · subst hij
        simp only [if_pos rfl, List.countP_cons, beq_self_eq_true, if_pos]
        rcases h : acc[i]? with _ | c
        · simp
        · simp only [Option.map_some', Option.map_map]
          congr 1
          omega
      · have hbf : (i == j) = false := by simpa using hij
        have hji : ¬ j = i := fun hh => hij hh.symm
        simp only [if_neg hji, List.countP_cons, hbf]
        rcases h : acc[j]? with _ | c <;> simp

/-- Lines 68-75 of `main.rs`, denotationally: when every tagged index is in
range, the count vector exists and holds, at each index, the number of tags
equal to that index. -/
lemma histogram_val_spec (idxs : List ℕ) (len : ℕ)
    (h : ∀ i ∈ idxs, i < len) :
    ∃ res, histogram_val idxs len = some res ∧ res.length = len ∧
      ∀ j, j < len → res[j]? = some (idxs.countP (fun i => i == j)) := by
  rcases foldlM_bump idxs (List.replicate len 0)
      (by simpa using h) with ⟨res, hres, hlen, hget⟩
  refine ⟨res, hres, by simpa using hlen, ?_⟩
  intro j hj
  rw [hget j, List.getElem?_replicate, if_pos hj]
  simp

/-- Every entry of the histogram output comes from a position of the input
list, carries a nonzero tag index below 36, and its tag is characterized as
the first boundary index whose value exceeds the position's key. -/
lemma hist_entry (ps : List Vec3) (r : Vec3 → ℚ) (stats : Vec3 × Vec3)
    {e : ℕ × Vec3} (he : e ∈ (histogram ps r stats).1) :
    ∃ p, p ∈ ps ∧ e.2 = p ∧ e.1 ≠ 0 ∧ e.1 < 36 ∧
      r p < bnd (r stats.1) (r stats.2) e.1 ∧
      ∀ t < e.1, bnd (r stats.1) (r stats.2) t ≤ r p := by
  rw [histogram_fst_char] at he
  have hef := (List.mem_filter.mp he).1
  have hne := (List.mem_filter.mp he).2
  rcases List.mem_filterMap.mp hef with ⟨p, hp, hfp⟩
  rcases hop : bsFind (r stats.1) (r stats.2) (r p) with _ | q
  · rw [hop] at hfp; simp at hfp
  · rw [hop] at hfp
    simp only [Option.map_some'] at hfp
    have he2 : (q.1, p) = e := by simpa using hfp
    rcases ((bsFind_char (r stats.1) (r stats.2) (r p)).2.1 q hop) with
      ⟨j, hj36, hq, hxj, hprev⟩
    have he1 : e.1 = j := by rw [← he2, hq]
    refine ⟨p, (sortByKey_perm r ps).mem_iff.mp hp, ?_, ?_, ?_, ?_, ?_⟩
    · rw [← he2]
    · rw [he1]
      intro h0
      rw [← he2, hq] at hne
      subst h0
      simp at hne
    · rw [he1]; exact hj36
    · rw [he1]; exact hxj
    · rw [he1]; exact hprev

/-- C7 (amended): whenever the reference standard deviation is nonnegative
and no position lies in the 35th interval `[bnd 34, bnd 35)` (which would
panic, see the out-of-bounds behaviour), the per-axis count vector of `main`
exists, has length 35 like the displayed boundary-pair list, stores `0` at
index `0`, and at each index `1 ≤ j ≤ 34` stores the number of positions in
`[bnd (j-1), bnd j)` — the interval of the boundary pair displayed at index
`j - 1`, one row below, not the pair `(bnd j, bnd (j+1))` displayed at `j`. -/
theorem histogram_counts_spec (ps : List Vec3) (r : Vec3 → ℚ)
    (stats : Vec3 × Vec3) (hs : 0 ≤ r stats.2)
    (hhi : ∀ v ∈ ps, ¬ (bnd (r stats.1) (r stats.2) 34 ≤ r v ∧
        r v < bnd (r stats.1) (r stats.2) 35)) :
    ∃ counts, mainCounts ps r stats = some counts ∧ counts.length = 35 ∧
      counts[0]? = some 0 ∧
      (∀ j, 1 ≤ j → j ≤ 34 →
        counts[j]? = some (ps.countP (fun v =>
          decide (bnd (r stats.1) (r stats.2) (j - 1) ≤ r v ∧
            r v < bnd (r stats.1) (r stats.2) j)))) ∧
      (∀ j, j ≤ 34 →
        (histogram ps r stats).2[j]? =
          some (bnd (r stats.1) (r stats.2) j, bnd (r stats.1) (r stats.2) (j + 1))) := by
  set c := r stats.1 with hc
  set s := r stats.2 with hsdef
  have hlen2 : (histogram ps r stats).2.length = 35 := by
    rw [histogram_snd]; simp
  have hidx : ∀ i ∈ (histogram ps r stats).1.map Prod.fst, i < 35 := by
    intro i hi
    rcases List.mem_map.mp hi with ⟨e, he, hei⟩
    rcases hist_entry ps r stats he with ⟨p, hp, _, hne0, h36, hlt, hall⟩
    rcases Nat.lt_or_ge e.1 35 with h | h
    · omega
    · have h35 : e.1 = 35 := by omega
      have h34 : bnd c s 34 ≤ r p := hall 34 (by omega)
      have : r p < bnd c s 35 := by rw [← h35]; exact hlt
      exact absurd ⟨h34, this⟩ (hhi p hp)
  rcases histogram_val_spec ((histogram ps r stats).1.map Prod.fst) 35 hidx with
    ⟨counts, hval, hclen, hcget⟩
  have hmain : mainCounts ps r stats = some counts := by
    show histogram_val ((histogram ps r stats).1.map Prod.fst)
        (histogram ps r stats).2.length = some counts
    rw [hlen2]
    exact hval
  refine ⟨counts, hmain, hclen, ?_, ?_, ?_⟩
  · rw [hcget 0 (by omega)]
    congr 1
    rw [List.countP_eq_zero]
    intro i hi
    rcases List.mem_map.mp hi with ⟨e, he, hei⟩
    rcases hist_entry ps r stats he with ⟨p, _, _, hne0, _, _, _⟩
    simp only [beq_iff_eq]
    rw [← hei]
    exact hne0
  · intro j hj1 hj34
    rw [hcget j (by omega)]
    congr 1
    rw [List.countP_map]
    rw [histogram_fst_char]
    have h1 : List.countP ((fun i => i == j) ∘ Prod.fst)
        (((sortByKey r ps).filterMap (fun p =>
          (bsFind c s (r p)).map (fun q => (q.1, p)))).filter
            (fun p => p.1 != 0)) =
        List.countP (fun e : ℕ × Vec3 => e.1 == j)
          ((sortByKey r ps).filterMap (fun p =>
            (bsFind c s (r p)).map (fun q => (q.1, p)))) := by
      rw [List.countP_filter]
      apply List.countP_congr
      intro e _
      constructor
      · intro h
        simp only [Bool.and_eq_true] at h
        exact h.1
      · intro h
        simp only [Bool.and_eq_true]
        refine ⟨h, ?_⟩
        have hej : e.1 = j := by simpa using h
        simp only [bne_iff_ne, ne_eq, hej]
        omega
    rw [h1]
    rw [List.countP_filterMap]
    have h2 : List.countP (fun p => (((bsFind c s (r p)).map
          (fun q => (q.1, p))).map (fun e : ℕ × Vec3 => e.1 == j)).getD false)
        (sortByKey r ps) =
        List.countP (fun v => decide (bnd c s (j - 1) ≤ r v ∧ r v < bnd c s j))
          (sortByKey r ps) := by
      apply List.countP_congr
      intro p _
      rcases hop : bsFind c s (r p) with _ | q
      · have hall := ((bsFind_char c s (r p)).1).mp hop
        have hble : bnd c s j ≤ r p := hall j (by omega)
        simp only [Option.map_none', Option.getD_none, Bool.false_eq_true,
          false_iff, decide_eq_true_eq]
        rintro ⟨h1x, h2x⟩
        exact absurd h2x (not_lt.mpr hble)
      · rcases ((bsFind_char c s (r p)).2.1 q hop) with ⟨j', hj36, hq, hxj, hprev⟩
        simp only [Option.map_some', Option.getD_some, hq]
        simp only [beq_iff_eq, decide_eq_true_eq]
        constructor
        · intro hjj
          subst hjj
          exact ⟨hprev (j' - 1) (by omega), hxj⟩
        · rintro ⟨hle, hlt⟩
          by_contra hne
          rcases Nat.lt_or_ge j' j with hlt' | hge
          · have : bnd c s j' ≤ bnd c s (j - 1) := bnd_mono c s hs (by omega)
            exact absurd hxj (not_lt.mpr (le_trans this hle))
          · have hjlt : j < j' := by omega
            have : bnd c s j ≤ r p := hprev j hjlt
            exact absurd hlt (not_lt.mpr this)
    rw [h2]
    exact ((sortByKey_perm r ps).countP_eq _)
  · intro j hj
    rw [histogram_snd]
    rw [List.getElem?_map, List.getElem?_range (by omega : j < 35)]
    rfl

/-- Witness for `histogram_counts_spec`: two positions with x values `-1/4`
and `1/2` (reference mean `0`, standard deviation `1`) are counted at
indices `17` and `21` — the intervals `[-1/3, -1/6)` and `[1/3, 1/2)`
displayed one row below. -/
theorem histogram_counts_spec_w :
    (0 : ℚ) ≤ ((⟨0, 0, 0⟩, ⟨1, 1, 1⟩) : Vec3 × Vec3).2.x ∧
    (∃ counts,
      mainCounts [⟨-1/4, 0, 0⟩, ⟨1/2, 0, 0⟩] (fun v => v.x)
          (⟨0, 0, 0⟩, ⟨1, 1, 1⟩) = some counts ∧
      counts.length = 35 ∧ counts[0]? = some 0 ∧
      (∀ j, 1 ≤ j → j ≤ 34 →
        counts[j]? = some (([⟨-1/4, 0, 0⟩, ⟨1/2, 0, 0⟩] : List Vec3).countP
          (fun v => decide (bnd 0 1 (j - 1) ≤ v.x ∧ v.x < bnd 0 1 j)))) ∧
      (∀ j, j ≤ 34 →
        (histogram [⟨-1/4, 0, 0⟩, ⟨1/2, 0, 0⟩] (fun v => v.x)
            (⟨0, 0, 0⟩, ⟨1, 1, 1⟩)).2[j]? = some (bnd 0 1 j, bnd 0 1 (j + 1)))) :=
  ⟨by decide,
    histogram_counts_spec [⟨-1/4, 0, 0⟩, ⟨1/2, 0, 0⟩] (fun v => v.x)
      (⟨0, 0, 0⟩, ⟨1, 1, 1⟩) (by decide) (by decide)⟩

/-! ### C6 : histogram boundary construction -/

/-- Counterexample to C6: with reference mean `0` and standard deviation
`1`, the first boundary is `-3` but no boundary equals `+3`: every boundary
is at most `17/6 < 3`, so the boundaries do not span plus-and-minus 3
standard deviations around the mean. -/
theorem histogram_boundaries_not_pm3 :
    (-3 : ℚ) ∈ boundariesFor 0 1 ∧ (3 : ℚ) ∉ boundariesFor 0 1 ∧
    (∀ b ∈ boundariesFor 0 1, b ≤ 17 / 6) ∧ (17 / 6 : ℚ) < 3 := by
  refine ⟨by decide, by decide, by decide, by decide⟩

/-- C6 (amended): `histogram` constructs `2*cutoff*divisions = 36` boundary
points `bnd c s j = c + (j - 18)/6 * s`, linearly spaced in steps of `s/6`,
starting exactly `3` standard deviations below the reference mean but ending
at `c + (17/6) s` — the `+3σ` end of the Rust half-open range `-18..18` is
excluded — yielding `35` boundary pairs that depend only on the reference
statistics, not on the data being binned. -/
theorem histogram_boundaries_spec (c s : ℚ) :
    boundariesFor c s = (List.range 36).map (bnd c s) ∧
    (boundariesFor c s).length = 36 ∧
    (∀ j : ℕ, j < 35 → bnd c s (j + 1) - bnd c s j = s / 6) ∧
    bnd c s 0 = c - 3 * s ∧
    bnd c s 35 = c + 17 / 6 * s ∧
    (∀ (ps : List Vec3) (r : Vec3 → ℚ) (stats : Vec3 × Vec3),
      (histogram ps r stats).2.length = 35) ∧
    (∀ (ps qs : List Vec3) (r : Vec3 → ℚ) (stats : Vec3 × Vec3),
      (histogram ps r stats).2 = (histogram qs r stats).2) := by
  refine ⟨boundariesFor_eq c s, ?_, ?_, ?_, ?_, ?_, ?_⟩
  · rw [boundariesFor_eq]; simp
  · intro j _
    unfold bnd
    push_cast
    ring
  · unfold bnd; push_cast; ring
  · unfold bnd; push_cast; ring
  · intro ps r stats
    rw [histogram_snd]; simp
  · intro ps qs r stats
    rw [histogram_snd, histogram_snd]

/-- Witness for `histogram_boundaries_spec` at mean `1`, stddev `2`. -/
theorem histogram_boundaries_spec_w :
    (boundariesFor 1 2).length = 36 ∧
    bnd 1 2 19 - bnd 1 2 18 = 2 / 6 ∧
    bnd 1 2 0 = 1 - 3 * 2 ∧
    (histogram [⟨5, 5, 5⟩] (fun v => v.y) (⟨1, 1, 1⟩, ⟨2, 2, 2⟩)).2 =
      (histogram [] (fun v => v.y) (⟨1, 1, 1⟩, ⟨2, 2, 2⟩)).2 :=
  ⟨(histogram_boundaries_spec 1 2).2.1,
    (histogram_boundaries_spec 1 2).2.2.1 18 (by omega),
    (histogram_boundaries_spec 1 2).2.2.2.1,
    (histogram_boundaries_spec 1 2).2.2.2.2.2.2 [⟨5, 5, 5⟩] []
      (fun v => v.y) (⟨1, 1, 1⟩, ⟨2, 2, 2⟩)⟩

end Gpsavg
